import Mathlib

/-
Verification development for the spike-engine adapter
(src/spike_engine/bindings.cpp and the spec it binds).

The repository ships only the pybind11 binding layer; the bodies of the
SpikeEngine methods (spike_engine.h / spike_engine.cpp) are not under src/.
Definitions whose doc comment starts with `Modelled from the spec:` embed
those missing bodies faithfully from the specification's words; everything
taken directly from bindings.cpp (the register-offset convention, the
default step budget, the exported surface) is noted as such.

The decode-execute unit is an external collaborator (the wrapped ISA
simulator); it is modelled as an arbitrary function from processor state
to processor state plus a trap flag, and the trap handler's designated
return point as an arbitrary predicate on states.
-/

namespace SpikeEngine

/-- Architectural state held by the Processor State Store (spec section 3):
32 general registers, 32 float registers, a sparse CSR bank, the program
counter, and the exclusively owned contiguous memory region (base address,
size, and a byte map). -/
structure ProcessorState where
  xpr : Fin 32 → Nat
  fpr : Fin 32 → Nat
  csrs : Nat → Option Nat
  pc : Nat
  memBase : Nat
  memSize : Nat
  mem : Nat → Nat

/-- Checkpoint, bound in bindings.cpp lines 21-26: exactly the fields
xpr, fpr, pc, instr_index. -/
structure Checkpoint where
  xpr : Fin 32 → Nat
  fpr : Fin 32 → Nat
  pc : Nat
  instr_index : Nat

/-- Error kinds of spec section 7. -/
inductive EngineError where
  | NotInit
  | InvalidRegisterIndex
  | UnknownCsr
  | OutOfBounds
  | LengthMismatch
  | InvalidSize
  | SimulatorConstructionFailure
  | NoCheckpoint
deriving DecidableEq, Repr

/-- One engine instance: processor state, the instruction-index counter,
the single checkpoint slot, and the transient ExecutionOutcome fields
(trap flag, trap-handler step count, last error message). -/
structure SpikeEngineState where
  proc : ProcessorState
  instrIndex : Nat
  numInstrs : Nat
  checkpoint : Option Checkpoint
  lastTrapped : Bool
  lastTrapHandlerSteps : Nat
  lastError : String
  initDone : Bool

/-- The decode-execute unit (external collaborator): executes exactly one
instruction, returning the mutated state and whether a trap occurred. -/
def DecodeExecute : Type := ProcessorState → ProcessorState × Bool

/-- Predicate recognising the trap handler's designated return point
(spec section 4.5), supplied by the surrounding template. -/
def ReturnPoint : Type := ProcessorState → Bool

/-- Modelled from the spec: SpikeEngine::get_instruction_size (declared at
bindings.cpp lines 45-55, body not under src/). Spec section 4.1: pure
function of the word's two least-significant bits; compressed (2 bytes)
when the two low bits are not both 1, standard (4 bytes) when they are. -/
def get_instruction_size (machine_code : Nat) : Nat :=
  if machine_code % 4 = 3 then 4 else 2

/-- FPR_OFFSET, bindings.cpp line 18: indices 32-63 address
floating-point registers via a fixed offset of 32. -/
def FPR_OFFSET : Nat := 32

/-- was_last_execution_trapped (bindings.cpp lines 144-154): trap flag of
the most recent execution call. -/
def was_last_execution_trapped (e : SpikeEngineState) : Bool :=
  e.lastTrapped

/-- get_last_trap_handler_steps (bindings.cpp lines 156-164): trap-handler
step count of the most recent execution call, 0 if no trap occurred. -/
def get_last_trap_handler_steps (e : SpikeEngineState) : Nat :=
  e.lastTrapHandlerSteps

/-- get_last_error (bindings.cpp lines 141-142). -/
def get_last_error (e : SpikeEngineState) : String :=
  e.lastError

/-- Modelled from the spec: one instruction write of section 4.4 step 1
(the body of execute_sequence is not under src/): the machine-code word is
written into the memory region at `addr`, truncated to its low `nbytes`
bytes, little-endian. -/
def writeBytes (p : ProcessorState) (addr word nbytes : Nat) : ProcessorState :=
  { p with mem := fun a =>
      if addr ≤ a ∧ a < addr + nbytes then (word >>> ((a - addr) * 8)) % 256
      else p.mem a }

/-- Modelled from the spec: section 4.4 step 1 — write each machineCodes[i]
at startAddr plus the running offset accumulating sizes[0..i-1]. -/
def writeSeq : ProcessorState → Nat → List Nat → List Nat → ProcessorState
  | p, _, [], _ => p
  | p, _, _ :: _, [] => p
  | p, addr, c :: cs, n :: ns => writeSeq (writeBytes p addr c n) (addr + n) cs ns

/-- Modelled from the spec: the while-part of the Trap Handler Sequencer
(section 4.5) — keep stepping the decode-execute unit until the designated
return point is reached; the loop is bounded only by the caller's maxSteps
budget on the outer call (`total` counts all steps of the call so far).
Returns the resulting state and the number of steps consumed. -/
def handlerLoop (dex : DecodeExecute) (atRet : ReturnPoint) (maxSteps : Nat) :
    Nat → ProcessorState → Nat → ProcessorState × Nat
  | 0, s, _ => (s, 0)
  | fuel + 1, s, total =>
    if atRet s = true ∨ maxSteps ≤ total then (s, 0)
    else
      let r := handlerLoop dex atRet maxSteps fuel (dex s).1 (total + 1)
      (r.1, r.2 + 1)

/-- Modelled from the spec: the Trap Handler Sequencer (section 4.5, body
not under src/). When a trap fires, control sits at the trap vector — not
at the designated return point — so the handler takes at least one step,
then keeps stepping until control returns to the instruction stream,
bounded only by the outer call's maxSteps budget. -/
def runTrapHandler (dex : DecodeExecute) (atRet : ReturnPoint)
    (maxSteps : Nat) (s : ProcessorState) (total : Nat) : ProcessorState × Nat :=
  let r := handlerLoop dex atRet maxSteps maxSteps (dex s).1 (total + 1)
  (r.1, r.2 + 1)

/-- Result of the stepping loop: final processor state, stepsExecuted,
trapHandlerSteps, and the latched trap flag. -/
structure LoopResult where
  proc : ProcessorState
  steps : Nat
  trapSteps : Nat
  trapped : Bool

/-- Modelled from the spec: the stepping loop of execute_sequence
(section 4.4 steps 3-4, body not under src/). Terminate when
programCounter >= endAddr or stepsExecuted >= maxSteps; otherwise step the
decode-execute unit once; on a trap, run the trap handler to completion
and add its step count to both stepsExecuted and trapHandlerSteps, latching
trapped; otherwise increment stepsExecuted by 1. The fuel argument is a
bound on loop iterations; since every iteration adds at least one step,
fuel = maxSteps makes the fuel-exit coincide with budget exhaustion. -/
def execLoop (dex : DecodeExecute) (atRet : ReturnPoint)
    (endAddr maxSteps : Nat) :
    Nat → ProcessorState → Nat → Nat → Bool → LoopResult
  | 0, s, steps, trapSteps, trapped => ⟨s, steps, trapSteps, trapped⟩
  | fuel + 1, s, steps, trapSteps, trapped =>
    if endAddr ≤ s.pc ∨ maxSteps ≤ steps then ⟨s, steps, trapSteps, trapped⟩
    else
      let r := dex s
      if r.2 then
        let h := runTrapHandler dex atRet maxSteps s steps
        execLoop dex atRet endAddr maxSteps fuel h.1 (steps + h.2)
          (trapSteps + h.2) true
      else
        execLoop dex atRet endAddr maxSteps fuel r.1 (steps + 1) trapSteps trapped

/-- Message recorded by get_last_error when the step budget is exhausted
(spec section 4.4 step 4 and section 7, StepBudgetExhausted:
non-fatal, informational). -/
def stepBudgetExhaustedMsg : String :=
  "StepBudgetExhausted"

/-- Modelled from the spec: SpikeEngine::execute_sequence (bound at
bindings.cpp lines 69-98, body not under src/), spec section 4.4.
Fails with LengthMismatch when the two sequences differ in length and with
InvalidSize on a zero sizes entry; otherwise writes the instructions at the
current programCounter, sets endAddr = startAddr + sum(sizes), runs the
stepping loop with trap absorption, overwrites the transient
ExecutionOutcome, and returns stepsExecuted. -/
def execute_sequence (dex : DecodeExecute) (atRet : ReturnPoint)
    (e : SpikeEngineState) (machineCodes sizes : List Nat) (maxSteps : Nat) :
    Except EngineError (SpikeEngineState × Nat) :=
  if machineCodes.length ≠ sizes.length then .error .LengthMismatch
  else if sizes.contains 0 then .error .InvalidSize
  else
    let startAddr := e.proc.pc
    let endAddr := startAddr + sizes.sum
    let p := writeSeq e.proc startAddr machineCodes sizes
    let r := execLoop dex atRet endAddr maxSteps maxSteps p 0 0 false
    .ok ({ e with
            proc := r.proc
            instrIndex := e.instrIndex + machineCodes.length
            lastTrapped := r.trapped
            lastTrapHandlerSteps := r.trapSteps
            lastError :=
              if maxSteps ≤ r.steps then stepBudgetExhaustedMsg else "" },
         r.steps)

/-- Default step budget of execute_sequence, bindings.cpp line 72:
py::arg max_steps = 10000. -/
def DEFAULT_MAX_STEPS : Nat := 10000

/-- execute_sequence as exposed when the caller omits max_steps
(bindings.cpp lines 69-72): the binding supplies the default budget. -/
def execute_sequence_default (dex : DecodeExecute) (atRet : ReturnPoint)
    (e : SpikeEngineState) (machineCodes sizes : List Nat) :
    Except EngineError (SpikeEngineState × Nat) :=
  execute_sequence dex atRet e machineCodes sizes DEFAULT_MAX_STEPS

/-- Modelled from the spec: SpikeEngine::set_checkpoint (bound at
bindings.cpp lines 63-64, body not under src/), spec section 4.3 save():
copies current xpr, fpr, pc, instrIndex into the single checkpoint slot,
overwriting any prior snapshot; fails with NotInit when the engine was
never initialized. -/
def set_checkpoint (e : SpikeEngineState) :
    Except EngineError SpikeEngineState :=
  if e.initDone then
    let c : Checkpoint := ⟨e.proc.xpr, e.proc.fpr, e.proc.pc, e.instrIndex⟩
    .ok { e with checkpoint := some c }
  else .error .NotInit

/-- Modelled from the spec: SpikeEngine::restore_checkpoint (bound at
bindings.cpp lines 66-67, body not under src/), spec section 4.3
restore(): copies the checkpoint slot's values back into the processor
state, overwriting registers and PC and rewinding the instruction-index
counter; CSRs and memory are left untouched; fails with NoCheckpoint when
no save happened. -/
def restore_checkpoint (e : SpikeEngineState) :
    Except EngineError SpikeEngineState :=
  match e.checkpoint with
  | none => .error .NoCheckpoint
  | some c =>
    .ok { e with
            proc := { e.proc with xpr := c.xpr, fpr := c.fpr, pc := c.pc }
            instrIndex := c.instr_index }

/-- Modelled from the spec: SpikeEngine::initialize (bound at bindings.cpp
lines 57-61, body not under src/), spec section 4.6. The collaborator work
(ELF load, simulator construction, template initialization up to the
reserved fuzz region) is a black-box input: an error message on any
failure, or the prepared processor state plus the start address of the
reserved fuzzing region on success. The engine turns that into a Bool plus
a recorded last-error message, never an exception (it is a total
function). -/
def initEngine (outcome : Except String (ProcessorState × Nat))
    (e : SpikeEngineState) : SpikeEngineState × Bool :=
  match outcome with
  | .error msg => ({ e with lastError := msg, initDone := false }, false)
  | .ok (p, fuzzStart) =>
    ({ e with proc := { p with pc := fuzzStart }
              lastError := ""
              initDone := true }, true)

/-- Modelled from the spec: SpikeEngine::read_mem (bound at bindings.cpp
lines 130-133, body not under src/), spec section 4.2 readMemory: returns
the ordered bytes of [addr, addr + size) when the range is fully contained
in the memory region, and fails with OutOfBounds otherwise. -/
def read_mem (e : SpikeEngineState) (addr size : Nat) :
    Except EngineError (List Nat) :=
  if e.proc.memBase ≤ addr ∧ addr + size ≤ e.proc.memBase + e.proc.memSize then
    .ok ((List.range size).map fun i => e.proc.mem (addr + i))
  else .error .OutOfBounds

/-- One execute_sequence call as issued by a caller between a save and a
restore: the collaborator functions together with the call arguments. -/
structure Call where
  dex : DecodeExecute
  atRet : ReturnPoint
  machineCodes : List Nat
  sizes : List Nat
  maxSteps : Nat

/-- Apply one execute_sequence call to an engine: on success the engine
advances to the post-call state; a precondition violation leaves the
engine state unchanged. -/
def runCall (e : SpikeEngineState) (c : Call) : SpikeEngineState :=
  match execute_sequence c.dex c.atRet e c.machineCodes c.sizes c.maxSteps with
  | .ok (e', _) => e'
  | .error _ => e

/-- A concrete processor state used to instantiate the theorems: all
registers zero, empty CSR bank, pc 0, a 4096-byte memory region at 0. -/
def demoProc : ProcessorState :=
  ⟨fun _ => 0, fun _ => 0, fun _ => none, 0, 0, 4096, fun _ => 0⟩

/-- A concrete initialized engine over demoProc. -/
def demoEngine : SpikeEngineState :=
  ⟨demoProc, 0, 200, none, false, 0, "", true⟩

/-- A concrete decode-execute unit: straight-line execution, every
instruction advances the PC by 4 and never traps. -/
def dexAdvance : DecodeExecute :=
  fun p => ({ p with pc := p.pc + 4 }, false)

/-- A concrete decode-execute unit that never advances the PC and never
traps: a tight backward loop, forcing the step budget to run out. -/
def dexStay : DecodeExecute :=
  fun p => (p, false)

/-- A concrete decode-execute unit in which every instruction traps and
control stays put: every step invokes the trap handler. -/
def dexTrapStay : DecodeExecute :=
  fun p => (p, true)

/-- A concrete return-point predicate: the handler's designated return
point is reached immediately, so each trap handler run takes one step. -/
def retAlways : ReturnPoint :=
  fun _ => true

/-- A concrete decode-execute unit that traps exactly once, on the
instruction at address 0, and otherwise advances straight-line. -/
def dexTrapOnce : DecodeExecute :=
  fun p => ({ p with pc := p.pc + 4 }, p.pc == 0)

/-- A concrete execute_sequence call for the checkpoint round-trip. -/
def demoCall : Call :=
  ⟨dexAdvance, retAlways, [19, 19], [4, 4], 100⟩

/-- Engine state after executing two straight-line 4-byte instructions on
demoEngine (two steps, pc 8, no trap, budget 100 not exhausted). -/
def demoEngineAfter : SpikeEngineState :=
  match execute_sequence dexAdvance retAlways demoEngine [19, 19] [4, 4] 100 with
  | .ok r => r.1
  | .error _ => demoEngine

/-- Engine state after a run in which every instruction traps and the
step budget of 3 is exhausted. -/
def demoTrapAfter : SpikeEngineState :=
  match execute_sequence dexTrapStay retAlways demoEngine [19] [4] 3 with
  | .ok r => r.1
  | .error _ => demoEngine

/-- Engine state after a trap-free run that exhausts its budget of 3. -/
def demoStayAfter : SpikeEngineState :=
  match execute_sequence dexStay retAlways demoEngine [19] [4] 3 with
  | .ok r => r.1
  | .error _ => demoEngine

/-- Engine state after a run whose single instruction traps once; the
handler takes one step and the budget of 10 is not exhausted. -/
def demoTrapOnceAfter : SpikeEngineState :=
  match execute_sequence dexTrapOnce retAlways demoEngine [19] [4] 10 with
  | .ok r => r.1
  | .error _ => demoEngine

/-- demoEngine right after set_checkpoint. -/
def demoSaved : SpikeEngineState :=
  match set_checkpoint demoEngine with
  | .ok e1 => e1
  | .error _ => demoEngine

/-- demoSaved after one execute_sequence call and then restore_checkpoint. -/
def demoRestored : SpikeEngineState :=
  match restore_checkpoint (List.foldl runCall demoSaved [demoCall]) with
  | .ok e2 => e2
  | .error _ => demoEngine

/-- demoSaved directly after restore_checkpoint (no execution between). -/
def demoSavedRestored : SpikeEngineState :=
  match restore_checkpoint demoSaved with
  | .ok e2 => e2
  | .error _ => demoEngine

/-- The handler while-loop never pushes the running step total past the
outer call's maxSteps budget. -/
theorem handlerLoop_budget (dex : DecodeExecute) (atRet : ReturnPoint)
    (maxSteps : Nat) :
    ∀ fuel s total, total ≤ maxSteps →
      total + (handlerLoop dex atRet maxSteps fuel s total).2 ≤ maxSteps := by
  intro fuel
  induction fuel with
  | zero => intro s total h; simpa [handlerLoop] using h
  | succ fuel ih =>
    intro s total h
    by_cases hc : atRet s = true ∨ maxSteps ≤ total
    · simpa [handlerLoop, hc] using h
    · have hlt : total + 1 ≤ maxSteps := by
        rcases Nat.lt_or_ge total maxSteps with h1 | h1
        · omega
        · exact absurd (Or.inr h1) hc
      have hrec := ih (dex s).1 (total + 1) hlt
      simp only [handlerLoop, hc, if_false]
      omega

/-- The trap handler, entered with the running total strictly below the
budget, leaves the total at most the budget. -/
theorem runTrapHandler_budget (dex : DecodeExecute) (atRet : ReturnPoint)
    (maxSteps : Nat) (s : ProcessorState) (total : Nat)
    (h : total < maxSteps) :
    total + (runTrapHandler dex atRet maxSteps s total).2 ≤ maxSteps := by
  have hb := handlerLoop_budget dex atRet maxSteps maxSteps (dex s).1 (total + 1) h
  simp only [runTrapHandler]
  omega

/-- The trap handler always consumes at least one step: when a trap
fires, control sits at the trap vector, not at the return point. -/
theorem runTrapHandler_pos (dex : DecodeExecute) (atRet : ReturnPoint)
    (maxSteps : Nat) (s : ProcessorState) (total : Nat) :
    1 ≤ (runTrapHandler dex atRet maxSteps s total).2 := by
  simp only [runTrapHandler]
  omega

/-- Step-budget invariant of the stepping loop: started at or below the
budget, stepsExecuted stays at or below it, traps included. -/
theorem execLoop_steps_le (dex : DecodeExecute) (atRet : ReturnPoint)
    (endAddr maxSteps : Nat) :
    ∀ fuel s steps ts tr, steps ≤ maxSteps →
      (execLoop dex atRet endAddr maxSteps fuel s steps ts tr).steps ≤ maxSteps := by
  intro fuel
  induction fuel with
  | zero => intro s steps ts tr h; simpa [execLoop] using h
  | succ fuel ih =>
    intro s steps ts tr h
    by_cases hc : endAddr ≤ s.pc ∨ maxSteps ≤ steps
    · simpa [execLoop, hc] using h
    · have hlt : steps < maxSteps := by
        rcases Nat.lt_or_ge steps maxSteps with h1 | h1
        · exact h1
        · exact absurd (Or.inr h1) hc
      by_cases ht : (dex s).2 = true
      · have hb := runTrapHandler_budget dex atRet maxSteps s steps hlt
        have hrec := ih (runTrapHandler dex atRet maxSteps s steps).1
          (steps + (runTrapHandler dex atRet maxSteps s steps).2)
          (ts + (runTrapHandler dex atRet maxSteps s steps).2) true (by omega)
        simpa [execLoop, hc, ht] using hrec
      · have hrec := ih (dex s).1 (steps + 1) ts tr (by omega)
        simpa [execLoop, hc, ht] using hrec

/-- With enough fuel (at least the remaining budget), the stepping loop
only stops at its stated exit condition: PC at or past endAddr, or the
step budget exhausted. -/
theorem execLoop_exit (dex : DecodeExecute) (atRet : ReturnPoint)
    (endAddr maxSteps : Nat) :
    ∀ fuel s steps ts tr, maxSteps ≤ steps + fuel →
      endAddr ≤ (execLoop dex atRet endAddr maxSteps fuel s steps ts tr).proc.pc ∨
      maxSteps ≤ (execLoop dex atRet endAddr maxSteps fuel s steps ts tr).steps := by
  intro fuel
  induction fuel with
  | zero =>
    intro s steps ts tr h
    right
    simpa [execLoop] using h
  | succ fuel ih =>
    intro s steps ts tr h
    by_cases hc : endAddr ≤ s.pc ∨ maxSteps ≤ steps
    · simp only [execLoop, if_pos hc]
      exact hc
    · by_cases ht : (dex s).2 = true
      · have hp := runTrapHandler_pos dex atRet maxSteps s steps
        have hrec := ih (runTrapHandler dex atRet maxSteps s steps).1
          (steps + (runTrapHandler dex atRet maxSteps s steps).2)
          (ts + (runTrapHandler dex atRet maxSteps s steps).2) true (by omega)
        simpa [execLoop, hc, ht] using hrec
      · have hrec := ih (dex s).1 (steps + 1) ts tr (by omega)
        simpa [execLoop, hc, ht] using hrec

/-- Trap-accounting invariants of the stepping loop: a latched trap flag
comes with a positive trap-handler step count, the trap-handler steps are
always included in stepsExecuted, and without a trap the handler count
stays zero. -/
theorem execLoop_trap_inv (dex : DecodeExecute) (atRet : ReturnPoint)
    (endAddr maxSteps : Nat) :
    ∀ fuel s steps ts tr,
      (tr = true → 1 ≤ ts) → ts ≤ steps → (tr = false → ts = 0) →
      ((execLoop dex atRet endAddr maxSteps fuel s steps ts tr).trapped = true →
        1 ≤ (execLoop dex atRet endAddr maxSteps fuel s steps ts tr).trapSteps) ∧
      (execLoop dex atRet endAddr maxSteps fuel s steps ts tr).trapSteps ≤
        (execLoop dex atRet endAddr maxSteps fuel s steps ts tr).steps ∧
      ((execLoop dex atRet endAddr maxSteps fuel s steps ts tr).trapped = false →
        (execLoop dex atRet endAddr maxSteps fuel s steps ts tr).trapSteps = 0) := by
  intro fuel
  induction fuel with
  | zero =>
    intro s steps ts tr h1 h2 h3
    simpa [execLoop] using ⟨h1, h2, h3⟩
  | succ fuel ih =>
    intro s steps ts tr h1 h2 h3
    by_cases hc : endAddr ≤ s.pc ∨ maxSteps ≤ steps
    · simpa [execLoop, hc] using ⟨h1, h2, h3⟩
    · by_cases ht : (dex s).2 = true
      · have hp := runTrapHandler_pos dex atRet maxSteps s steps
        have hrec := ih (runTrapHandler dex atRet maxSteps s steps).1
          (steps + (runTrapHandler dex atRet maxSteps s steps).2)
          (ts + (runTrapHandler dex atRet maxSteps s steps).2) true
          (fun _ => by omega) (by omega) (fun hf => by cases hf)
        simpa [execLoop, hc, ht] using hrec
      · have hrec := ih (dex s).1 (steps + 1) ts tr h1 (by omega) h3
        simpa [execLoop, hc, ht] using hrec

/-- Unpacking a successful execute_sequence call: the returned step count
and the recorded outcome are those of the stepping loop run from the
written-in state with endAddr = startAddr + sum(sizes), and the
checkpoint slot is untouched. -/
theorem execute_sequence_ok (dex : DecodeExecute) (atRet : ReturnPoint)
    (e : SpikeEngineState) (codes sizes : List Nat) (maxSteps : Nat)
    (e' : SpikeEngineState) (n : Nat)
    (h : execute_sequence dex atRet e codes sizes maxSteps = .ok (e', n)) :
    n = (execLoop dex atRet (e.proc.pc + sizes.sum) maxSteps maxSteps
          (writeSeq e.proc e.proc.pc codes sizes) 0 0 false).steps ∧
    e'.proc = (execLoop dex atRet (e.proc.pc + sizes.sum) maxSteps maxSteps
          (writeSeq e.proc e.proc.pc codes sizes) 0 0 false).proc ∧
    e'.lastTrapped = (execLoop dex atRet (e.proc.pc + sizes.sum) maxSteps maxSteps
          (writeSeq e.proc e.proc.pc codes sizes) 0 0 false).trapped ∧
    e'.lastTrapHandlerSteps =
      (execLoop dex atRet (e.proc.pc + sizes.sum) maxSteps maxSteps
          (writeSeq e.proc e.proc.pc codes sizes) 0 0 false).trapSteps ∧
    e'.lastError =
      (if maxSteps ≤ (execLoop dex atRet (e.proc.pc + sizes.sum) maxSteps maxSteps
          (writeSeq e.proc e.proc.pc codes sizes) 0 0 false).steps
       then stepBudgetExhaustedMsg else "") ∧
    e'.checkpoint = e.checkpoint := by
  unfold execute_sequence at h
  split at h
  · exact absurd h (by simp)
  · split at h
    · exact absurd h (by simp)
    · rw [Except.ok.injEq, Prod.mk.injEq] at h
      obtain ⟨he, hn⟩ := h
      subst hn
      rw [← he]
      exact ⟨rfl, rfl, rfl, rfl, rfl, rfl⟩

/-- One execute_sequence call never touches the checkpoint slot. -/
theorem runCall_checkpoint (e : SpikeEngineState) (c : Call) :
    (runCall e c).checkpoint = e.checkpoint := by
  cases hr : execute_sequence c.dex c.atRet e c.machineCodes c.sizes c.maxSteps with
  | ok r =>
    obtain ⟨e', n⟩ := r
    have h :=
      (execute_sequence_ok c.dex c.atRet e c.machineCodes c.sizes c.maxSteps
        e' n hr).2.2.2.2.2
    simp [runCall, hr, h]
  | error err =>
    simp [runCall, hr]

/-- No sequence of execute_sequence calls touches the checkpoint slot. -/
theorem foldl_runCall_checkpoint (calls : List Call) :
    ∀ e : SpikeEngineState, (calls.foldl runCall e).checkpoint = e.checkpoint := by
  induction calls with
  | nil => intro e; rfl
  | cons c cs ih =>
    intro e
    simpa [List.foldl] using (ih (runCall e c)).trans (runCall_checkpoint e c)

/-- C1: For every call executeSequence(machineCodes, sizes, maxSteps = K)
with valid inputs, the returned stepsExecuted (the value recorded in the
ExecutionOutcome) is never greater than K, including calls during which
traps occur and trap-handler steps are added to stepsExecuted. -/
theorem C1_steps_never_exceed_budget (dex : DecodeExecute) (atRet : ReturnPoint)
    (e : SpikeEngineState) (codes sizes : List Nat) (maxSteps : Nat)
    (e' : SpikeEngineState) (n : Nat)
    (h : execute_sequence dex atRet e codes sizes maxSteps = .ok (e', n)) :
    n ≤ maxSteps := by
  obtain ⟨hn, -, -, -, -, -⟩ :=
    execute_sequence_ok dex atRet e codes sizes maxSteps e' n h
  rw [hn]
  exact execLoop_steps_le dex atRet (e.proc.pc + sizes.sum) maxSteps maxSteps
    (writeSeq e.proc e.proc.pc codes sizes) 0 0 false (Nat.zero_le _)

/-- Witness for C1: a concrete two-instruction straight-line run with
budget 100 reports 2 steps. -/
theorem C1_steps_never_exceed_budget_witness : (2 : Nat) ≤ 100 :=
  C1_steps_never_exceed_budget dexAdvance retAlways demoEngine [19, 19]
    [4, 4] 100 demoEngineAfter 2 rfl

/-- C2: For every valid executeSequence call, with startAddr the
programCounter at entry, the stepping loop terminates exactly when
programCounter >= startAddr + sum(sizes) or stepsExecuted >= maxSteps
(first conjunct: at exit one of the two conditions holds; second
conjunct: while neither holds the loop takes another iteration), and the
call returns stepsExecuted. -/
theorem C2_loop_exit_condition (dex : DecodeExecute) (atRet : ReturnPoint)
    (e : SpikeEngineState) (codes sizes : List Nat) (maxSteps : Nat)
    (e' : SpikeEngineState) (n : Nat)
    (h : execute_sequence dex atRet e codes sizes maxSteps = .ok (e', n)) :
    (e.proc.pc + sizes.sum ≤ e'.proc.pc ∨ maxSteps ≤ n) ∧
    (∀ fuel s steps ts tr,
      ¬ e.proc.pc + sizes.sum ≤ s.pc → ¬ maxSteps ≤ steps →
      execLoop dex atRet (e.proc.pc + sizes.sum) maxSteps (fuel + 1) s steps ts tr =
        if (dex s).2 then
          execLoop dex atRet (e.proc.pc + sizes.sum) maxSteps fuel
            (runTrapHandler dex atRet maxSteps s steps).1
            (steps + (runTrapHandler dex atRet maxSteps s steps).2)
            (ts + (runTrapHandler dex atRet maxSteps s steps).2) true
        else
          execLoop dex atRet (e.proc.pc + sizes.sum) maxSteps fuel (dex s).1
            (steps + 1) ts tr) := by
  obtain ⟨hn, hp, -, -, -, -⟩ :=
    execute_sequence_ok dex atRet e codes sizes maxSteps e' n h
  constructor
  · rw [hn, hp]
    exact execLoop_exit dex atRet (e.proc.pc + sizes.sum) maxSteps maxSteps
      (writeSeq e.proc e.proc.pc codes sizes) 0 0 false (by omega)
  · intro fuel s steps ts tr h1 h2
    rw [execLoop, if_neg (not_or.mpr ⟨h1, h2⟩)]

/-- Witness for C2: the concrete straight-line run exits with the PC at
or past the end address. -/
theorem C2_loop_exit_condition_witness :
    demoEngine.proc.pc + [4, 4].sum ≤ demoEngineAfter.proc.pc ∨ (100 : Nat) ≤ 2 :=
  (C2_loop_exit_condition dexAdvance retAlways demoEngine [19, 19] [4, 4] 100
    demoEngineAfter 2 rfl).1

/-- C6: classify (get_instruction_size) is a pure function of the two
least-significant bits of its argument, never fails, always returns a
value in the set consisting of 2 and 4: 2 whenever the two low bits are
not both 1 (compressed), 4 whenever they are (standard). -/
theorem C6_instruction_size_classifier :
    (∀ w : Nat, get_instruction_size w = get_instruction_size (w % 4)) ∧
    (∀ w : Nat, get_instruction_size w = 2 ∨ get_instruction_size w = 4) ∧
    (∀ w : Nat, w % 4 ≠ 3 → get_instruction_size w = 2) ∧
    (∀ w : Nat, w % 4 = 3 → get_instruction_size w = 4) := by
  refine ⟨fun w => ?_, fun w => ?_, fun w hw => ?_, fun w hw => ?_⟩
  · have h4 : w % 4 % 4 = w % 4 := by omega
    simp [get_instruction_size, h4]
  · by_cases hw : w % 4 = 3
    · right; simp [get_instruction_size, hw]
    · left; simp [get_instruction_size, hw]
  · simp [get_instruction_size, hw]
  · simp [get_instruction_size, hw]

/-- Witness for C6: a standard word (addi x0, x0, 0 has low bits 11) and
a compressed word (low bits 10). -/
theorem C6_instruction_size_classifier_witness :
    get_instruction_size 19 = 4 ∧ get_instruction_size 2 = 2 :=
  ⟨C6_instruction_size_classifier.2.2.2 19 (by decide),
   C6_instruction_size_classifier.2.2.1 2 (by decide)⟩

/-- C3: after set_checkpoint (save), any sequence of executeSequence
calls, and then restore_checkpoint (restore), every general register,
every float register and the program counter are bit-identical to their
values at the moment of the save, and the instruction-index counter is
rewound to its saved value — for arbitrary executed sequences, which
subsumes straight-line, forward-jump and backward-loop ones. -/
theorem C3_checkpoint_roundtrip (e : SpikeEngineState) (calls : List Call)
    (e1 e2 : SpikeEngineState)
    (hsave : set_checkpoint e = .ok e1)
    (hrestore : restore_checkpoint (calls.foldl runCall e1) = .ok e2) :
    e2.proc.xpr = e.proc.xpr ∧ e2.proc.fpr = e.proc.fpr ∧
    e2.proc.pc = e.proc.pc ∧ e2.instrIndex = e.instrIndex := by
  unfold set_checkpoint at hsave
  split at hsave
  · rw [Except.ok.injEq] at hsave
    have hcp : (calls.foldl runCall e1).checkpoint =
        some ⟨e.proc.xpr, e.proc.fpr, e.proc.pc, e.instrIndex⟩ := by
      rw [foldl_runCall_checkpoint, ← hsave]
    simp only [restore_checkpoint, hcp] at hrestore
    rw [Except.ok.injEq] at hrestore
    subst hrestore
    exact ⟨rfl, rfl, rfl, rfl⟩
  · exact absurd hsave (by simp)

/-- Witness for C3: save on demoEngine, one straight-line
execute_sequence call, then restore. -/
theorem C3_checkpoint_roundtrip_witness :
    demoRestored.proc.xpr = demoEngine.proc.xpr ∧
    demoRestored.proc.fpr = demoEngine.proc.fpr ∧
    demoRestored.proc.pc = demoEngine.proc.pc ∧
    demoRestored.instrIndex = demoEngine.instrIndex :=
  C3_checkpoint_roundtrip demoEngine [demoCall] demoSaved demoRestored rfl rfl

/-- C4: restore_checkpoint modifies only the general registers, the
float registers, the program counter and the instruction index: every
CSR address, every byte of the memory region, the region bounds, the
outcome fields and the checkpoint slot itself keep the value they had
immediately before the restore; and a Checkpoint is determined by exactly
the four fields xpr, fpr, pc, instr_index. -/
theorem C4_restore_frame (e e' : SpikeEngineState)
    (h : restore_checkpoint e = .ok e') :
    (∀ a, e'.proc.csrs a = e.proc.csrs a) ∧
    (∀ a, e'.proc.mem a = e.proc.mem a) ∧
    e'.proc.memBase = e.proc.memBase ∧
    e'.proc.memSize = e.proc.memSize ∧
    e'.numInstrs = e.numInstrs ∧
    e'.checkpoint = e.checkpoint ∧
    e'.lastTrapped = e.lastTrapped ∧
    e'.lastTrapHandlerSteps = e.lastTrapHandlerSteps ∧
    e'.lastError = e.lastError ∧
    (∀ c1 c2 : Checkpoint, c1.xpr = c2.xpr → c1.fpr = c2.fpr →
      c1.pc = c2.pc → c1.instr_index = c2.instr_index → c1 = c2) := by
  cases hc : e.checkpoint with
  | none =>
    simp only [restore_checkpoint, hc] at h
    exact absurd h (by simp)
  | some c =>
    simp only [restore_checkpoint, hc] at h
    rw [Except.ok.injEq] at h
    subst h
    refine ⟨fun a => rfl, fun a => rfl, rfl, rfl, rfl, hc.symm ▸ rfl, rfl, rfl,
      rfl, ?_⟩
    intro c1 c2 hx hf hp hi
    cases c1
    cases c2
    simp only [Checkpoint.mk.injEq]
    exact ⟨hx, hf, hp, hi⟩

/-- Witness for C4: restore on the saved demo engine leaves a memory
byte and the region size untouched. -/
theorem C4_restore_frame_witness :
    demoSavedRestored.proc.mem 0 = demoSaved.proc.mem 0 ∧
    demoSavedRestored.proc.memSize = demoSaved.proc.memSize :=
  ⟨(C4_restore_frame demoSaved demoSavedRestored rfl).2.1 0,
   (C4_restore_frame demoSaved demoSavedRestored rfl).2.2.2.1⟩

/-- C5 (amended): for every executeSequence call in which some executed
instruction traps (the outcome's latched trapped flag),
was_last_execution_trapped is true afterwards, get_last_trap_handler_steps
is strictly positive, stepsExecuted includes the trap-handler steps, and —
provided the step budget was not exhausted — get_last_error returns the
empty string; for every call in which no trap occurs,
get_last_trap_handler_steps returns 0. -/
theorem C5_trap_outcome (dex : DecodeExecute) (atRet : ReturnPoint)
    (e : SpikeEngineState) (codes sizes : List Nat) (maxSteps : Nat)
    (e' : SpikeEngineState) (n : Nat)
    (h : execute_sequence dex atRet e codes sizes maxSteps = .ok (e', n)) :
    (was_last_execution_trapped e' = true →
      0 < get_last_trap_handler_steps e' ∧
      get_last_trap_handler_steps e' ≤ n ∧
      (¬ maxSteps ≤ n → get_last_error e' = "")) ∧
    (was_last_execution_trapped e' = false →
      get_last_trap_handler_steps e' = 0) := by
  obtain ⟨hn, -, htr, hts, herr, -⟩ :=
    execute_sequence_ok dex atRet e codes sizes maxSteps e' n h
  have hinv := execLoop_trap_inv dex atRet (e.proc.pc + sizes.sum) maxSteps
    maxSteps (writeSeq e.proc e.proc.pc codes sizes) 0 0 false
    (fun hf => Bool.noConfusion hf) (Nat.le_refl 0) (fun _ => rfl)
  simp only [was_last_execution_trapped, get_last_trap_handler_steps,
    get_last_error]
  constructor
  · intro htrap
    rw [htr] at htrap
    refine ⟨?_, ?_, ?_⟩
    · rw [hts]
      exact hinv.1 htrap
    · rw [hts, hn]
      exact hinv.2.1
    · intro hb
      rw [hn] at hb
      rw [herr, if_neg hb]
  · intro hno
    rw [htr] at hno
    rw [hts]
    exact hinv.2.2 hno

/-- Witness for C5 (amended): a call whose single instruction traps once
within a budget of 10 ends with a positive handler step count and an
empty last error. -/
theorem C5_trap_outcome_witness :
    0 < get_last_trap_handler_steps demoTrapOnceAfter ∧
    get_last_error demoTrapOnceAfter = "" := by
  have h := (C5_trap_outcome dexTrapOnce retAlways demoEngine [19] [4] 10
    demoTrapOnceAfter 1 rfl).1 rfl
  exact ⟨h.1, h.2.2 (by decide)⟩

/-- Counterexample for C5 as stated: a call in which every instruction
traps and the step budget of 3 is exhausted ends with the trapped flag
set and a NON-empty last error (the step-budget-exhausted message),
refuting "get_last_error returns the empty string" for every call in
which some executed instruction traps. -/
theorem C5_trap_error_counterexample :
    execute_sequence dexTrapStay retAlways demoEngine [19] [4] 3 =
      .ok (demoTrapAfter, 3) ∧
    was_last_execution_trapped demoTrapAfter = true ∧
    get_last_trap_handler_steps demoTrapAfter = 3 ∧
    ¬ get_last_error demoTrapAfter = "" :=
  ⟨rfl, rfl, rfl, by decide⟩

/-- C7: a call that terminates because stepsExecuted reached maxSteps
does not raise an error: on valid inputs execute_sequence returns
normally (an ok result carrying the stepsExecuted value reached), and
whenever the returned count has hit the budget, get_last_error afterwards
holds the step-budget-exhausted message (non-fatal, informational). -/
theorem C7_budget_exhaustion_not_error (dex : DecodeExecute)
    (atRet : ReturnPoint) (e : SpikeEngineState) (codes sizes : List Nat)
    (maxSteps : Nat)
    (hlen : codes.length = sizes.length) (hsz : sizes.contains 0 = false) :
    (execute_sequence dex atRet e codes sizes maxSteps).isOk = true ∧
    (∀ e' n, execute_sequence dex atRet e codes sizes maxSteps = .ok (e', n) →
      maxSteps ≤ n → get_last_error e' = stepBudgetExhaustedMsg) := by
  constructor
  · unfold execute_sequence
    rw [if_neg (fun hne => hne hlen), if_neg (by rw [hsz]; simp)]
    rfl
  · intro e' n h hb
    obtain ⟨hn, -, -, -, herr, -⟩ :=
      execute_sequence_ok dex atRet e codes sizes maxSteps e' n h
    rw [hn] at hb
    simp only [get_last_error]
    rw [herr, if_pos hb]

/-- Witness for C7: a trap-free run that never advances the PC exhausts
its budget of 3, returns normally, and records the exhaustion message. -/
theorem C7_budget_exhaustion_not_error_witness :
    (execute_sequence dexStay retAlways demoEngine [19] [4] 3).isOk = true ∧
    get_last_error demoStayAfter = stepBudgetExhaustedMsg := by
  have h := C7_budget_exhaustion_not_error dexStay retAlways demoEngine [19]
    [4] 3 rfl rfl
  exact ⟨h.1, h.2 demoStayAfter 3 rfl (by decide)⟩

/-- C8: initEngine (the model of initialize) is a total function — no
exception crosses its boundary; on any collaborator failure (malformed
ELF, simulator construction failure, unexpected trap during template
initialization, all abstracted as the error outcome) it returns false and
records the message retrievable via get_last_error; on success it returns
true and leaves the program counter at the start of the reserved fuzzing
region. -/
theorem C8_init_contract :
    (∀ (msg : String) (e : SpikeEngineState),
      (initEngine (.error msg) e).2 = false ∧
      get_last_error (initEngine (.error msg) e).1 = msg) ∧
    (∀ (p : ProcessorState) (fuzzStart : Nat) (e : SpikeEngineState),
      (initEngine (.ok (p, fuzzStart)) e).2 = true ∧
      (initEngine (.ok (p, fuzzStart)) e).1.proc.pc = fuzzStart) :=
  ⟨fun _ _ => ⟨rfl, rfl⟩, fun _ _ _ => ⟨rfl, rfl⟩⟩

/-- C9: read_mem returns an ordered sequence of exactly `size` bytes when
the requested range lies fully inside the memory region, and fails with
OutOfBounds otherwise; in particular reading 1 byte at
memBase + memSize fails with OutOfBounds. -/
theorem C9_read_mem_bounds (e : SpikeEngineState) (addr size : Nat) :
    (e.proc.memBase ≤ addr ∧ addr + size ≤ e.proc.memBase + e.proc.memSize →
      (read_mem e addr size).isOk = true ∧
      ∀ bs, read_mem e addr size = .ok bs → bs.length = size) ∧
    (¬ (e.proc.memBase ≤ addr ∧ addr + size ≤ e.proc.memBase + e.proc.memSize) →
      read_mem e addr size = .error .OutOfBounds) ∧
    read_mem e (e.proc.memBase + e.proc.memSize) 1 = .error .OutOfBounds := by
  refine ⟨fun hin => ?_, fun hout => ?_, ?_⟩
  · simp only [read_mem]
    rw [if_pos hin]
    refine ⟨rfl, fun bs hbs => ?_⟩
    rw [Except.ok.injEq] at hbs
    rw [← hbs]
    simp
  · simp only [read_mem]
    rw [if_neg hout]
  · simp only [read_mem]
    rw [if_neg (by omega)]

/-- Witness for C9: on the demo engine (region of 4096 bytes at 0) an
in-range 4-byte read succeeds and the 1-byte read at the end of the
region fails with OutOfBounds. -/
theorem C9_read_mem_bounds_witness :
    (read_mem demoEngine 0 4).isOk = true ∧
    read_mem demoEngine (demoEngine.proc.memBase + demoEngine.proc.memSize) 1 =
      .error EngineError.OutOfBounds :=
  ⟨((C9_read_mem_bounds demoEngine 0 4).1 (by decide)).1,
   (C9_read_mem_bounds demoEngine 0 1).2.2⟩

/-- C10: when the caller omits max_steps, execute_sequence behaves
exactly as if called with max_steps = 10000, the default supplied by the
binding (bindings.cpp line 72). -/
theorem C10_default_step_budget (dex : DecodeExecute) (atRet : ReturnPoint)
    (e : SpikeEngineState) (codes sizes : List Nat) :
    execute_sequence_default dex atRet e codes sizes =
      execute_sequence dex atRet e codes sizes 10000 ∧
    DEFAULT_MAX_STEPS = 10000 :=
  ⟨rfl, rfl⟩

end SpikeEngine
